import Mathlib

/-!
Verification of the hotkey-listener core: a shallow embedding of the
repository sources (src/key.rs, src/hotkey.rs, src/event.rs, src/linux.rs,
src/macos.rs, src/listener.rs) together with theorems settling the spec
claims about matching, modifier tracking, ordering, reconnection and the
hotkey string form.
-/

set_option maxHeartbeats 1000000

deriving instance DecidableEq for Except

namespace HotkeyListener

/-- Platform-agnostic key representation (src/key.rs, enum Key). -/
inductive Key
  | F1 | F2 | F3 | F4 | F5 | F6 | F7 | F8 | F9 | F10 | F11 | F12
  | ScrollLock
  | Pause
  | Insert
  deriving DecidableEq, Repr, Fintype

/-- Modifier keys that can be combined with a hotkey (src/hotkey.rs, struct
Modifiers). The field defaults mirror the Rust `Default` derive. -/
structure Modifiers where
  shift : Bool := false
  ctrl : Bool := false
  alt : Bool := false
  deriving DecidableEq, Repr

/-- A hotkey consisting of a key and optional modifiers (src/hotkey.rs). -/
structure Hotkey where
  key : Key
  modifiers : Modifiers
  deriving DecidableEq, Repr

/-- Events emitted when a registered hotkey is pressed or released
(src/event.rs, enum HotkeyEvent). -/
inductive HotkeyEvent
  | Pressed (index : Nat)
  | Released (index : Nat)
  deriving DecidableEq, Repr

/-- The index carried by a `HotkeyEvent`. -/
def eventIndex : HotkeyEvent → Nat
  | .Pressed i => i
  | .Released i => i

/-! String form of keys and hotkeys (Display impls and the parsers). -/

/-- ASCII uppercasing of a string, the effect of Rust `to_uppercase` on the
ASCII key and modifier names used here. -/
def upperStr (s : String) : String :=
  ⟨s.data.map Char.toUpper⟩

/-- Splitting a character list at a separator character, the behaviour of
Rust `str::split(char)`: empty input gives one empty part, and every
separator occurrence starts a new part. -/
def splitChar (sep : Char) : List Char → List (List Char)
  | [] => [[]]
  | c :: rest =>
    let parts := splitChar sep rest
    if c = sep then [] :: parts
    else
      match parts with
      | [] => [[c]]
      | p :: ps => (c :: p) :: ps

/-- The parts of a string split at a separator character. -/
def splitParts (sep : Char) (s : String) : List String :=
  (splitChar sep s.data).map fun cs => ⟨cs⟩

/-- Parse a key from a string like "F8" or "ScrollLock" (src/key.rs,
Key::parse). -/
def Key.parse (s : String) : Except String Key :=
  match upperStr s with
  | "F1" => .ok .F1
  | "F2" => .ok .F2
  | "F3" => .ok .F3
  | "F4" => .ok .F4
  | "F5" => .ok .F5
  | "F6" => .ok .F6
  | "F7" => .ok .F7
  | "F8" => .ok .F8
  | "F9" => .ok .F9
  | "F10" => .ok .F10
  | "F11" => .ok .F11
  | "F12" => .ok .F12
  | "SCROLLLOCK" => .ok .ScrollLock
  | "SCROLL_LOCK" => .ok .ScrollLock
  | "PAUSE" => .ok .Pause
  | "INSERT" => .ok .Insert
  | _ => .error ("Unknown key: " ++ s)

/-- The Display form of a key (src/key.rs, impl Display for Key). -/
def Key.display : Key → String
  | .F1 => "F1"
  | .F2 => "F2"
  | .F3 => "F3"
  | .F4 => "F4"
  | .F5 => "F5"
  | .F6 => "F6"
  | .F7 => "F7"
  | .F8 => "F8"
  | .F9 => "F9"
  | .F10 => "F10"
  | .F11 => "F11"
  | .F12 => "F12"
  | .ScrollLock => "ScrollLock"
  | .Pause => "Pause"
  | .Insert => "Insert"

/-- The Display form of a hotkey (src/hotkey.rs, impl Display for Hotkey):
Ctrl, Alt, Shift parts in that order, then the key name, joined by "+". -/
def Hotkey.display (h : Hotkey) : String :=
  let parts :=
    (if h.modifiers.ctrl then ["Ctrl"] else []) ++
    (if h.modifiers.alt then ["Alt"] else []) ++
    (if h.modifiers.shift then ["Shift"] else []) ++
    [h.key.display]
  String.intercalate "+" parts

/-- Fold the modifier parts of a hotkey string into a Modifiers value,
mirroring the loop over `parts[..parts.len() - 1]` in parse_hotkey
(src/hotkey.rs): each recognized name sets one flag, an unknown name is an
error. -/
def parseModifierParts : List String → Modifiers → Except String Modifiers
  | [], m => .ok m
  | p :: rest, m =>
    match upperStr p with
    | "SHIFT" => parseModifierParts rest { m with shift := true }
    | "CTRL" => parseModifierParts rest { m with ctrl := true }
    | "CONTROL" => parseModifierParts rest { m with ctrl := true }
    | "ALT" => parseModifierParts rest { m with alt := true }
    | _ => .error ("Unknown modifier: " ++ p)

/-- Parse a hotkey string like "Shift+F8" or "F10" into a Hotkey
(src/hotkey.rs, parse_hotkey): split at the plus sign, all parts but the
last are modifiers, the last part is the key. -/
def parse_hotkey (s : String) : Except String Hotkey :=
  match splitParts (Char.ofNat 43) s with
  | [] => .error "Empty hotkey string"
  | p :: ps => do
    let modifiers ← parseModifierParts ((p :: ps).dropLast) {}
    let key ← Key.parse ((p :: ps).getLast (List.cons_ne_nil p ps))
    .ok { key := key, modifiers := modifiers }

/-! Linux backend (src/linux.rs): evdev key space, modifier tracking and
matching as performed by the worker loop in start_keyboard_listener. -/

/-- The evdev key space as seen by the matcher: the keys to_evdev_key can
produce, the six modifier keys the tracker matches on, KEY_A (the keyboard
capability probe), and a catch-all for every other key code. -/
inductive EvdevKey
  | KEY_F1 | KEY_F2 | KEY_F3 | KEY_F4 | KEY_F5 | KEY_F6
  | KEY_F7 | KEY_F8 | KEY_F9 | KEY_F10 | KEY_F11 | KEY_F12
  | KEY_SCROLLLOCK
  | KEY_PAUSE
  | KEY_INSERT
  | KEY_LEFTSHIFT | KEY_RIGHTSHIFT
  | KEY_LEFTCTRL | KEY_RIGHTCTRL
  | KEY_LEFTALT | KEY_RIGHTALT
  | KEY_A
  | KEY_OTHER (code : Nat)
  deriving DecidableEq, Repr

/-- Convert the platform-agnostic Key to an evdev key (src/linux.rs,
to_evdev_key). -/
def to_evdev_key : Key → EvdevKey
  | .F1 => .KEY_F1
  | .F2 => .KEY_F2
  | .F3 => .KEY_F3
  | .F4 => .KEY_F4
  | .F5 => .KEY_F5
  | .F6 => .KEY_F6
  | .F7 => .KEY_F7
  | .F8 => .KEY_F8
  | .F9 => .KEY_F9
  | .F10 => .KEY_F10
  | .F11 => .KEY_F11
  | .F12 => .KEY_F12
  | .ScrollLock => .KEY_SCROLLLOCK
  | .Pause => .KEY_PAUSE
  | .Insert => .KEY_INSERT

/-- The hotkey table the Linux worker matches against: registration order is
preserved by the map (src/linux.rs, evdev_hotkeys). -/
def evdevHotkeys (hotkeys : List Hotkey) : List (EvdevKey × Modifiers) :=
  hotkeys.map fun h => (to_evdev_key h.key, h.modifiers)

/-- Exact modifier comparison used by both backends before emitting a press
(src/linux.rs and src/macos.rs, mods_match). -/
def modsMatch (current target : Modifiers) : Bool :=
  current.shift == target.shift && current.ctrl == target.ctrl &&
    current.alt == target.alt

/-- Modifier-state update of the Linux worker for one key event with the
given pressed/released flags (src/linux.rs, the match on key inside
start_keyboard_listener): each modifier key aliases its left and right
variants, the flag becomes `pressed || (!released && old)` and is then
forced to false on release; every other key leaves the state unchanged. -/
def linuxUpdateMods (mods : Modifiers) (key : EvdevKey)
    (pressed released : Bool) : Modifiers :=
  match key with
  | .KEY_LEFTSHIFT | .KEY_RIGHTSHIFT =>
    let s := pressed || (!released && mods.shift)
    let s := if released then false else s
    { mods with shift := s }
  | .KEY_LEFTCTRL | .KEY_RIGHTCTRL =>
    let c := pressed || (!released && mods.ctrl)
    let c := if released then false else c
    { mods with ctrl := c }
  | .KEY_LEFTALT | .KEY_RIGHTALT =>
    let a := pressed || (!released && mods.alt)
    let a := if released then false else a
    { mods with alt := a }
  | _ => mods

/-- The Linux hotkey scan (src/linux.rs, the `for (idx, (hotkey_key,
hotkey_mods)) in evdev_hotkeys.iter().enumerate()` loop): for every entry
whose key equals the transitioning key and whose modifiers equal the live
state, emit Pressed on a press and Released on a release; the index counter
starts at `start` and follows list position. -/
def matchEntries (key : EvdevKey) (mods : Modifiers) (pressed released : Bool) :
    Nat → List (EvdevKey × Modifiers) → List HotkeyEvent
  | _, [] => []
  | idx, (hk, hm) :: rest =>
    (if key = hk then
      (if modsMatch mods hm then
        (if pressed then [HotkeyEvent.Pressed idx]
         else if released then [HotkeyEvent.Released idx]
         else [])
       else [])
     else []) ++ matchEntries key mods pressed released (idx + 1) rest

/-- Processing of one evdev key event by the Linux worker: classify the raw
value (1 = press, 0 = release, anything else, such as the autorepeat value
2, is neither), update the modifier state, then scan the hotkey table
(src/linux.rs lines 207-255). -/
def linuxProcessKey (hotkeys : List (EvdevKey × Modifiers)) (mods : Modifiers)
    (key : EvdevKey) (value : Nat) : Modifiers × List HotkeyEvent :=
  let pressed := value == 1
  let released := value == 0
  let mods := linuxUpdateMods mods key pressed released
  (mods, matchEntries key mods pressed released 0 hotkeys)

/-- One raw input event as the Linux worker sees it: a key event with its
raw value, or any other event kind (ignored by the
`if let InputEventKind::Key(key)` pattern). -/
inductive LinuxInputEvent
  | key (k : EvdevKey) (value : Nat)
  | other
  deriving DecidableEq, Repr

/-- Processing of one raw input event: non-key events produce nothing. -/
def linuxProcessEvent (hotkeys : List (EvdevKey × Modifiers))
    (mods : Modifiers) : LinuxInputEvent → Modifiers × List HotkeyEvent
  | .key k value => linuxProcessKey hotkeys mods k value
  | .other => (mods, [])

/-- The Linux worker loop over a sequence of raw input events: events are
processed in order and the emitted HotkeyEvents are appended to the channel
in that same order (src/linux.rs lines 204-275, with the mpsc channel
modelled as the returned list). -/
def linuxRun (hotkeys : List (EvdevKey × Modifiers)) (mods : Modifiers) :
    List LinuxInputEvent → Modifiers × List HotkeyEvent
  | [] => (mods, [])
  | e :: rest =>
    let step := linuxProcessEvent hotkeys mods e
    let next := linuxRun hotkeys step.1 rest
    (next.1, step.2 ++ next.2)

/-! macOS backend (src/macos.rs): rdev key space and the hook callback. -/

/-- The rdev key space as seen by the callback: the keys to_rdev_key can
produce, the modifier keys the callback matches on, the rdev right-alt key
AltGr (which the callback does not match), and a catch-all for every other
key. -/
inductive RdevKey
  | F1 | F2 | F3 | F4 | F5 | F6 | F7 | F8 | F9 | F10 | F11 | F12
  | ScrollLock
  | Pause
  | Insert
  | ShiftLeft | ShiftRight
  | ControlLeft | ControlRight
  | Alt
  | AltGr
  | Other (code : Nat)
  deriving DecidableEq, Repr

/-- Convert the platform-agnostic Key to an rdev key (src/macos.rs,
to_rdev_key). -/
def to_rdev_key : Key → RdevKey
  | .F1 => .F1
  | .F2 => .F2
  | .F3 => .F3
  | .F4 => .F4
  | .F5 => .F5
  | .F6 => .F6
  | .F7 => .F7
  | .F8 => .F8
  | .F9 => .F9
  | .F10 => .F10
  | .F11 => .F11
  | .F12 => .F12
  | .ScrollLock => .ScrollLock
  | .Pause => .Pause
  | .Insert => .Insert

/-- The hotkey table the macOS callback matches against (src/macos.rs,
rdev_hotkeys). -/
def rdevHotkeys (hotkeys : List Hotkey) : List (RdevKey × Modifiers) :=
  hotkeys.map fun h => (to_rdev_key h.key, h.modifiers)

/-- One rdev event as the callback sees it (src/macos.rs, the match on
event.event_type). -/
inductive RdevEventType
  | KeyPress (k : RdevKey)
  | KeyRelease (k : RdevKey)
  | Other
  deriving DecidableEq, Repr

/-- Modifier update on a KeyPress in the macOS callback (src/macos.rs lines
72-83): ShiftLeft and ShiftRight set shift, ControlLeft and ControlRight set
ctrl, Alt sets alt; every other key, AltGr included, changes nothing. -/
def macosUpdatePress (mods : Modifiers) : RdevKey → Modifiers
  | .ShiftLeft | .ShiftRight => { mods with shift := true }
  | .ControlLeft | .ControlRight => { mods with ctrl := true }
  | .Alt => { mods with alt := true }
  | _ => mods

/-- Modifier update on a KeyRelease in the macOS callback (src/macos.rs
lines 99-110). -/
def macosUpdateRelease (mods : Modifiers) : RdevKey → Modifiers
  | .ShiftLeft | .ShiftRight => { mods with shift := false }
  | .ControlLeft | .ControlRight => { mods with ctrl := false }
  | .Alt => { mods with alt := false }
  | _ => mods

/-- The macOS press scan (src/macos.rs lines 86-96): Pressed is emitted for
every entry whose key matches and whose modifiers equal the live state. -/
def macosPressEntries (key : RdevKey) (mods : Modifiers) :
    Nat → List (RdevKey × Modifiers) → List HotkeyEvent
  | _, [] => []
  | idx, (hk, hm) :: rest =>
    (if key = hk then
      (if modsMatch mods hm then [HotkeyEvent.Pressed idx] else [])
     else []) ++ macosPressEntries key mods (idx + 1) rest

/-- The macOS release scan (src/macos.rs lines 113-120): Released is emitted
for every entry whose key matches, without comparing modifiers. -/
def macosReleaseEntries (key : RdevKey) :
    Nat → List (RdevKey × Modifiers) → List HotkeyEvent
  | _, [] => []
  | idx, (hk, _) :: rest =>
    (if key = hk then [HotkeyEvent.Released idx] else [])
      ++ macosReleaseEntries key (idx + 1) rest

/-- One invocation of the macOS hook callback (src/macos.rs lines 68-124):
update the modifier state, then scan the hotkey table with the
backend-specific press or release policy. -/
def macosCallback (hotkeys : List (RdevKey × Modifiers)) (mods : Modifiers) :
    RdevEventType → Modifiers × List HotkeyEvent
  | .KeyPress key =>
    let mods := macosUpdatePress mods key
    (mods, macosPressEntries key mods 0 hotkeys)
  | .KeyRelease key =>
    let mods := macosUpdateRelease mods key
    (mods, macosReleaseEntries key 0 hotkeys)
  | .Other => (mods, [])

/-- The macOS callback over a sequence of hook invocations, delivered in
order (the OS invokes the callback synchronously per transition and the
mpsc channel is modelled as the returned list). -/
def macosRun (hotkeys : List (RdevKey × Modifiers)) (mods : Modifiers) :
    List RdevEventType → Modifiers × List HotkeyEvent
  | [] => (mods, [])
  | e :: rest =>
    let step := macosCallback hotkeys mods e
    let next := macosRun hotkeys step.1 rest
    (next.1, step.2 ++ next.2)

/-! Device discovery, construction errors, and the reconnection supervisor
(src/linux.rs find_keyboards, set_nonblocking, the rescan block of the
worker loop; src/listener.rs build/start; src/macos.rs start). -/

/-- One directory entry of the discovery scan, with the observable facts the
code branches on: whether the file name starts with "event", whether
Device::open succeeds, and whether the supported-keys set contains KEY_A. -/
structure CandidateDevice where
  nameStartsWithEvent : Bool
  opensOk : Bool
  supportsKeyA : Bool
  id : Nat
  deriving DecidableEq, Repr

/-- Whether discovery keeps a directory entry (src/linux.rs find_keyboards):
the name filter, the open, and the KEY_A capability probe must all pass. -/
def keptByDiscovery (c : CandidateDevice) : Bool :=
  c.nameStartsWithEvent && c.opensOk && c.supportsKeyA

/-- Find all keyboard devices in /dev/input (src/linux.rs, find_keyboards):
keep the entries passing the filter; error when none remain. -/
def find_keyboards (entries : List CandidateDevice) : Except String (List Nat) :=
  let keyboards := (entries.filter keptByDiscovery).map fun c => c.id
  if keyboards.isEmpty then .error "No keyboards found" else .ok keyboards

/-- Set non-blocking mode on keyboard devices (src/linux.rs,
set_nonblocking): the fcntl calls are modelled by a per-device success flag;
the first failing device aborts with an error. -/
def set_nonblocking (ok : Nat → Bool) : List Nat → Except String Unit
  | [] => .ok ()
  | d :: rest =>
    if ok d then set_nonblocking ok rest
    else .error "Failed to set non-blocking"

/-- True exactly on the Except ok constructor. -/
def exceptIsOk {ε α : Type} : Except ε α → Bool
  | .ok _ => true
  | .error _ => false

/-- Minimum interval between keyboard rescans (src/linux.rs,
RESCAN_INTERVAL, 3 seconds; time is counted here in seconds). -/
def RESCAN_INTERVAL : Nat := 3

/-- The worker-loop state relevant to the reconnection supervisor
(src/linux.rs, the locals of the spawned thread): the owned device set, the
live modifier state, the had_error flag, and the last_rescan timestamp. -/
structure LoopState where
  keyboards : List Nat
  currentMods : Modifiers
  hadError : Bool
  lastRescan : Nat
  deriving DecidableEq, Repr

/-- The rescan guard at the top of each worker iteration (src/linux.rs line
162): `had_error && last_rescan.elapsed() >= RESCAN_INTERVAL`. -/
def rescanDue (s : LoopState) (now : Nat) : Bool :=
  s.hadError && RESCAN_INTERVAL ≤ now - s.lastRescan

/-- The rescan block of the worker loop (src/linux.rs lines 162-200): when
due, re-run discovery; on success set non-blocking, drain stale events,
replace the whole device set, reset the modifier state to default and clear
had_error; on either failure keep everything; in every attempted case
last_rescan is set to now. -/
def rescanStep (s : LoopState) (now : Nat) (entries : List CandidateDevice)
    (nonblockOk : Nat → Bool) : LoopState :=
  if rescanDue s now then
    match find_keyboards entries with
    | .ok newKbs =>
      match set_nonblocking nonblockOk newKbs with
      | .ok _ =>
        { keyboards := newKbs, currentMods := {}, hadError := false,
          lastRescan := now }
      | .error _ => { s with lastRescan := now }
    | .error _ => { s with lastRescan := now }
  else s

/-- The fault-recording tail of one poll iteration (src/linux.rs lines
259-273): a non-would-block read error on any device sets had_error; nothing
ever clears it except a successful rescan. -/
def pollTick (s : LoopState) (anyError : Bool) : LoopState :=
  if anyError then { s with hadError := true } else s

/-- Result of a start call, as far as the construction-error claims are
concerned: whether the background thread was spawned, and the value of the
shared running flag once the spawned thread has attempted hook
registration (relevant only to the macOS backend). -/
structure StartOutcome where
  threadSpawned : Bool
  runningFlagAfterHookAttempt : Bool
  deriving DecidableEq, Repr

/-- Linux start (src/linux.rs, HotkeyListener::start): set_nonblocking runs
first and its error is returned before start_keyboard_listener spawns the
worker thread; the running flag was set true by the caller
(src/listener.rs) and nothing in the Linux path clears it. -/
def linuxStart (keyboards : List Nat) (nonblockOk : Nat → Bool) :
    Except String StartOutcome :=
  match set_nonblocking nonblockOk keyboards with
  | .error e => .error e
  | .ok _ => .ok { threadSpawned := true, runningFlagAfterHookAttempt := true }

/-- Linux build (src/listener.rs, build under target_os linux): discovery
runs synchronously and its error is returned to the caller. -/
def linuxBuild (entries : List CandidateDevice) :
    Except String (List Nat) :=
  find_keyboards entries

/-- macOS start (src/macos.rs, HotkeyListener::start and
start_keyboard_listener): the channel is created, the thread is spawned and
Ok is returned unconditionally; `listen(callback)` runs inside the spawned
thread, and when hook registration fails its only effect is storing false
into the shared running flag. -/
def macosStart (hookRegistrationOk : Bool) : Except String StartOutcome :=
  .ok { threadSpawned := true,
        runningFlagAfterHookAttempt := hookRegistrationOk }

/-- Build on an unsupported platform (src/listener.rs, the cfg fallback):
an immediate error. -/
def buildUnsupported : Except String Unit :=
  .error "Hotkey listening is not supported on this platform"

/-- The evdev keys the Linux modifier tracker matches on. -/
def isModifierEvdevKey : EvdevKey → Bool
  | .KEY_LEFTSHIFT | .KEY_RIGHTSHIFT | .KEY_LEFTCTRL | .KEY_RIGHTCTRL
  | .KEY_LEFTALT | .KEY_RIGHTALT => true
  | _ => false

/-- The rdev keys the macOS modifier tracker matches on. Note that AltGr,
the rdev name for the right-alt key, is absent: src/macos.rs matches only
`rdev::Key::Alt`. -/
def isModifierRdevKey : RdevKey → Bool
  | .ShiftLeft | .ShiftRight | .ControlLeft | .ControlRight | .Alt => true
  | _ => false

/-- How many of the three modifier flags differ between two states. -/
def changedFlags (a b : Modifiers) : Nat :=
  (if a.shift = b.shift then 0 else 1) +
  (if a.ctrl = b.ctrl then 0 else 1) +
  (if a.alt = b.alt then 0 else 1)


/-- Sample states and discovery entries used by the concrete witnesses. -/
def faultedSample : LoopState :=
  { keyboards := [1], currentMods := { shift := true }, hadError := true,
    lastRescan := 0 }

/-- A discovery entry that passes every filter, device id 7. -/
def kbdEntry : CandidateDevice :=
  { nameStartsWithEvent := true, opensOk := true, supportsKeyA := true,
    id := 7 }

/-- A discovery entry that passes every filter, device id 9. -/
def kbdEntry9 : CandidateDevice :=
  { nameStartsWithEvent := true, opensOk := true, supportsKeyA := true,
    id := 9 }

/-- A discovery entry whose device cannot be opened. -/
def unopenableEntry : CandidateDevice :=
  { nameStartsWithEvent := true, opensOk := false, supportsKeyA := true,
    id := 3 }

/-- A discovery entry that is not a keyboard (no KEY_A capability). -/
def nonKbdEntry : CandidateDevice :=
  { nameStartsWithEvent := true, opensOk := true, supportsKeyA := false,
    id := 2 }

/-- Non-blocking setup succeeding on every device. -/
def allOk : Nat → Bool := fun _ => true

/-- Non-blocking setup failing on every device. -/
def allFail : Nat → Bool := fun _ => false

/-- The loop state right after thread start. -/
def startSample : LoopState :=
  { keyboards := [0], currentMods := {}, hadError := false, lastRescan := 0 }

/-- A faulted state whose last rescan attempt was at time 2. -/
def recentSample : LoopState :=
  { keyboards := [4], currentMods := {}, hadError := true, lastRescan := 2 }


end HotkeyListener

namespace HotkeyListener

/-! Helper lemmas about the matchers and the modifier trackers. -/

/-- Exact modifier comparison decides equality of Modifiers values. -/
lemma modsMatch_iff {a b : Modifiers} : modsMatch a b = true ↔ a = b := by
  obtain ⟨s1, c1, a1⟩ := a
  obtain ⟨s2, c2, a2⟩ := b
  simp [modsMatch, Modifiers.mk.injEq, Bool.and_eq_true, and_assoc]

/-- A registered hotkey key is never an evdev modifier key, so processing
its transition leaves the tracked modifier state unchanged. -/
lemma linuxUpdateMods_to_evdev (k : Key) (mods : Modifiers) (p r : Bool) :
    linuxUpdateMods mods (to_evdev_key k) p r = mods := by
  cases k <;> rfl

/-- A registered hotkey key is never an rdev modifier key (press side). -/
lemma macosUpdatePress_to_rdev (k : Key) (mods : Modifiers) :
    macosUpdatePress mods (to_rdev_key k) = mods := by
  cases k <;> rfl

/-- A registered hotkey key is never an rdev modifier key (release side). -/
lemma macosUpdateRelease_to_rdev (k : Key) (mods : Modifiers) :
    macosUpdateRelease mods (to_rdev_key k) = mods := by
  cases k <;> rfl

/-- to_evdev_key maps distinct keys to distinct evdev keys. -/
lemma to_evdev_key_inj {a b : Key} (h : to_evdev_key a = to_evdev_key b) :
    a = b := by
  revert h
  revert a b
  decide

/-- to_rdev_key maps distinct keys to distinct rdev keys. -/
lemma to_rdev_key_inj {a b : Key} (h : to_rdev_key a = to_rdev_key b) :
    a = b := by
  revert h
  revert a b
  decide

/-- A value that is neither a press nor a release matches no entry. -/
lemma matchEntries_neither (key : EvdevKey) (mods : Modifiers) :
    ∀ (start : Nat) (entries : List (EvdevKey × Modifiers)),
      matchEntries key mods false false start entries = []
  | _, [] => rfl
  | start, (hk, hm) :: rest => by
    simp [matchEntries, matchEntries_neither key mods (start + 1) rest]

/-- Membership introduction for the Linux scan: an entry whose key and
modifiers match contributes its positioned event. -/
lemma mem_matchEntries_of_get (key : EvdevKey) (mods : Modifiers) (p r : Bool) :
    ∀ (entries : List (EvdevKey × Modifiers)) (start j : Nat)
      (hj : j < entries.length) (e : HotkeyEvent),
      (entries.get ⟨j, hj⟩).1 = key →
      modsMatch mods (entries.get ⟨j, hj⟩).2 = true →
      e ∈ (if p then [HotkeyEvent.Pressed (start + j)]
           else if r then [HotkeyEvent.Released (start + j)] else []) →
      e ∈ matchEntries key mods p r start entries := by
  intro entries
  induction entries with
  | nil => intro start j hj; simp at hj
  | cons head rest ih =>
    intro start j hj e hkey hmods he
    obtain ⟨hk, hm⟩ := head
    match j with
    | 0 =>
      simp only [List.get] at hkey hmods
      simp only [matchEntries, List.mem_append]
      left
      rw [← hkey]
      simp only [if_pos rfl, if_pos hmods]
      simpa using he
    | Nat.succ j =>
      simp only [List.get] at hkey hmods
      simp only [matchEntries, List.mem_append]
      right
      have hj2 : j < rest.length := Nat.lt_of_succ_lt_succ hj
      refine ih (start + 1) j hj2 e hkey hmods ?_
      have harith : start + 1 + j = start + (j + 1) := by omega
      rw [harith]
      exact he

/-- Membership elimination for the Linux scan: every emitted event comes
from an entry at a definite position with matching key and modifiers, and
its index is that position shifted by the starting counter. -/
lemma of_mem_matchEntries (key : EvdevKey) (mods : Modifiers) (p r : Bool) :
    ∀ (entries : List (EvdevKey × Modifiers)) (start : Nat) (e : HotkeyEvent),
      e ∈ matchEntries key mods p r start entries →
      ∃ j, ∃ hj : j < entries.length,
        eventIndex e = start + j ∧ (entries.get ⟨j, hj⟩).1 = key ∧
        modsMatch mods (entries.get ⟨j, hj⟩).2 = true := by
  intro entries
  induction entries with
  | nil => intro start e he; simp [matchEntries] at he
  | cons head rest ih =>
    intro start e he
    obtain ⟨hk, hm⟩ := head
    simp only [matchEntries, List.mem_append] at he
    rcases he with he | he
    · by_cases h1 : key = hk
      · by_cases h2 : modsMatch mods hm
        · refine ⟨0, Nat.succ_pos _, ?_, h1.symm, h2⟩
          rw [if_pos h1, if_pos h2] at he
          by_cases hp : p
          · rw [if_pos hp] at he
            simp at he
            simp [he, eventIndex]
          · rw [if_neg hp] at he
            by_cases hr : r
            · rw [if_pos hr] at he
              simp at he
              simp [he, eventIndex]
            · rw [if_neg hr] at he
              simp at he
        · rw [if_pos h1, if_neg h2] at he
          simp at he
      · rw [if_neg h1] at he
        simp at he
    · obtain ⟨j, hj, hidx, hkey, hmods⟩ := ih (start + 1) e he
      refine ⟨j + 1, Nat.succ_lt_succ hj, ?_, hkey, hmods⟩
      omega

/-- Membership introduction for the macOS press scan. -/
lemma mem_macosPressEntries_of_get (key : RdevKey) (mods : Modifiers) :
    ∀ (entries : List (RdevKey × Modifiers)) (start j : Nat)
      (hj : j < entries.length),
      (entries.get ⟨j, hj⟩).1 = key →
      modsMatch mods (entries.get ⟨j, hj⟩).2 = true →
      HotkeyEvent.Pressed (start + j) ∈ macosPressEntries key mods start entries := by
  intro entries
  induction entries with
  | nil => intro start j hj; simp at hj
  | cons head rest ih =>
    intro start j hj hkey hmods
    obtain ⟨hk, hm⟩ := head
    match j with
    | 0 =>
      simp only [List.get] at hkey hmods
      simp only [macosPressEntries, List.mem_append]
      left
      rw [← hkey]
      simp [if_pos rfl, hmods]
    | Nat.succ j =>
      simp only [List.get] at hkey hmods
      simp only [macosPressEntries, List.mem_append]
      right
      have hj2 : j < rest.length := Nat.lt_of_succ_lt_succ hj
      have harith : start + (j + 1) = start + 1 + j := by omega
      rw [harith]
      exact ih (start + 1) j hj2 hkey hmods

/-- Membership elimination for the macOS press scan. -/
lemma of_mem_macosPressEntries (key : RdevKey) (mods : Modifiers) :
    ∀ (entries : List (RdevKey × Modifiers)) (start : Nat) (e : HotkeyEvent),
      e ∈ macosPressEntries key mods start entries →
      ∃ j, ∃ hj : j < entries.length,
        e = HotkeyEvent.Pressed (start + j) ∧ (entries.get ⟨j, hj⟩).1 = key ∧
        modsMatch mods (entries.get ⟨j, hj⟩).2 = true := by
  intro entries
  induction entries with
  | nil => intro start e he; simp [macosPressEntries] at he
  | cons head rest ih =>
    intro start e he
    obtain ⟨hk, hm⟩ := head
    simp only [macosPressEntries, List.mem_append] at he
    rcases he with he | he
    · by_cases h1 : key = hk
      · by_cases h2 : modsMatch mods hm
        · rw [if_pos h1, if_pos h2] at he
          simp at he
          exact ⟨0, Nat.succ_pos _, by simpa using he, h1.symm, h2⟩
        · rw [if_pos h1, if_neg h2] at he
          simp at he
      · rw [if_neg h1] at he
        simp at he
    · obtain ⟨j, hj, hidx, hkey, hmods⟩ := ih (start + 1) e he
      refine ⟨j + 1, Nat.succ_lt_succ hj, ?_, hkey, hmods⟩
      rw [hidx]
      congr 1
      omega

/-- Membership introduction for the macOS release scan: a key match alone
suffices. -/
lemma mem_macosReleaseEntries_of_get (key : RdevKey) :
    ∀ (entries : List (RdevKey × Modifiers)) (start j : Nat)
      (hj : j < entries.length),
      (entries.get ⟨j, hj⟩).1 = key →
      HotkeyEvent.Released (start + j) ∈ macosReleaseEntries key start entries := by
  intro entries
  induction entries with
  | nil => intro start j hj; simp at hj
  | cons head rest ih =>
    intro start j hj hkey
    obtain ⟨hk, hm⟩ := head
    match j with
    | 0 =>
      simp only [List.get] at hkey
      simp only [macosReleaseEntries, List.mem_append]
      left
      rw [← hkey]
      simp
    | Nat.succ j =>
      simp only [List.get] at hkey
      simp only [macosReleaseEntries, List.mem_append]
      right
      have hj2 : j < rest.length := Nat.lt_of_succ_lt_succ hj
      have harith : start + (j + 1) = start + 1 + j := by omega
      rw [harith]
      exact ih (start + 1) j hj2 hkey

/-- Membership elimination for the macOS release scan. -/
lemma of_mem_macosReleaseEntries (key : RdevKey) :
    ∀ (entries : List (RdevKey × Modifiers)) (start : Nat) (e : HotkeyEvent),
      e ∈ macosReleaseEntries key start entries →
      ∃ j, ∃ hj : j < entries.length,
        e = HotkeyEvent.Released (start + j) ∧ (entries.get ⟨j, hj⟩).1 = key := by
  intro entries
  induction entries with
  | nil => intro start e he; simp [macosReleaseEntries] at he
  | cons head rest ih =>
    intro start e he
    obtain ⟨hk, hm⟩ := head
    simp only [macosReleaseEntries, List.mem_append] at he
    rcases he with he | he
    · by_cases h1 : key = hk
      · rw [if_pos h1] at he
        simp at he
        exact ⟨0, Nat.succ_pos _, by simpa using he, h1.symm⟩
      · rw [if_neg h1] at he
        simp at he
    · obtain ⟨j, hj, hidx, hkey⟩ := ih (start + 1) e he
      refine ⟨j + 1, Nat.succ_lt_succ hj, ?_, hkey⟩
      rw [hidx]
      congr 1
      omega

/-- The hotkey-table entry at a registration position, Linux side. -/
lemma evdevHotkeys_get (hotkeys : List Hotkey) (j : Nat)
    (hj : j < (evdevHotkeys hotkeys).length) :
    (evdevHotkeys hotkeys).get ⟨j, hj⟩ =
      (to_evdev_key ((hotkeys.get ⟨j, by simpa [evdevHotkeys] using hj⟩).key),
       (hotkeys.get ⟨j, by simpa [evdevHotkeys] using hj⟩).modifiers) := by
  simp [evdevHotkeys, List.getElem_map]

/-- The hotkey-table entry at a registration position, macOS side. -/
lemma rdevHotkeys_get (hotkeys : List Hotkey) (j : Nat)
    (hj : j < (rdevHotkeys hotkeys).length) :
    (rdevHotkeys hotkeys).get ⟨j, hj⟩ =
      (to_rdev_key ((hotkeys.get ⟨j, by simpa [rdevHotkeys] using hj⟩).key),
       (hotkeys.get ⟨j, by simpa [rdevHotkeys] using hj⟩).modifiers) := by
  simp [rdevHotkeys, List.getElem_map]

/-- Processing a key event whose value is neither 0 nor 1 leaves the
tracked modifier state unchanged. -/
lemma linuxUpdateMods_neither (mods : Modifiers) (k : EvdevKey) :
    linuxUpdateMods mods k false false = mods := by
  cases k <;> rfl

/-- Rewriting the shift flag changes at most one flag. -/
lemma changedFlags_shift (m : Modifiers) (s : Bool) :
    changedFlags m { m with shift := s } ≤ 1 := by
  simp only [changedFlags]
  split_ifs <;> simp_all

/-- Rewriting the ctrl flag changes at most one flag. -/
lemma changedFlags_ctrl (m : Modifiers) (c : Bool) :
    changedFlags m { m with ctrl := c } ≤ 1 := by
  simp only [changedFlags]
  split_ifs <;> simp_all

/-- Rewriting the alt flag changes at most one flag. -/
lemma changedFlags_alt (m : Modifiers) (a : Bool) :
    changedFlags m { m with alt := a } ≤ 1 := by
  simp only [changedFlags]
  split_ifs <;> simp_all

/-- A failing device makes set_nonblocking fail as a whole. -/
lemma set_nonblocking_error (f : Nat → Bool) :
    ∀ (kbs : List Nat) (d : Nat), d ∈ kbs → f d = false →
      exceptIsOk (set_nonblocking f kbs) = false := by
  intro kbs
  induction kbs with
  | nil => intro d hd; simp at hd
  | cons x rest ih =>
    intro d hd hf
    by_cases hx : f x
    · have hdr : d ∈ rest := by
        rcases List.mem_cons.mp hd with hdx | hdr
        · rw [hdx] at hf
          rw [hf] at hx
          simp at hx
        · exact hdr
      simpa [set_nonblocking, hx] using ih d hdr hf
    · simp [set_nonblocking, hx, exceptIsOk]


/-- C1: for every hotkey registered at index i with modifier set M,
processing a press of its key while the live modifier state exactly equals
M emits Pressed(i) (on both backends), and a press of that key while the
live state differs from M in any bit emits no event for index i. -/
theorem C1_press_exact_match (hotkeys : List Hotkey) (i : Nat) (mods : Modifiers)
    (h : i < hotkeys.length)
    (hne : mods ≠ (hotkeys.get ⟨i, h⟩).modifiers) :
    HotkeyEvent.Pressed i ∈
      (linuxProcessKey (evdevHotkeys hotkeys) (hotkeys.get ⟨i, h⟩).modifiers
        (to_evdev_key (hotkeys.get ⟨i, h⟩).key) 1).2 ∧
    HotkeyEvent.Pressed i ∈
      (macosCallback (rdevHotkeys hotkeys) (hotkeys.get ⟨i, h⟩).modifiers
        (.KeyPress (to_rdev_key (hotkeys.get ⟨i, h⟩).key))).2 ∧
    (∀ e ∈ (linuxProcessKey (evdevHotkeys hotkeys) mods
        (to_evdev_key (hotkeys.get ⟨i, h⟩).key) 1).2, eventIndex e ≠ i) ∧
    (∀ e ∈ (macosCallback (rdevHotkeys hotkeys) mods
        (.KeyPress (to_rdev_key (hotkeys.get ⟨i, h⟩).key))).2,
      eventIndex e ≠ i) := by
  have hlenE : (evdevHotkeys hotkeys).length = hotkeys.length := by
    simp [evdevHotkeys]
  have hlenR : (rdevHotkeys hotkeys).length = hotkeys.length := by
    simp [rdevHotkeys]
  have hiE : i < (evdevHotkeys hotkeys).length := by omega
  have hiR : i < (rdevHotkeys hotkeys).length := by omega
  refine ⟨?_, ?_, ?_, ?_⟩
  · simp only [linuxProcessKey]
    rw [linuxUpdateMods_to_evdev]
    refine mem_matchEntries_of_get _ _ _ _ (evdevHotkeys hotkeys) 0 i hiE _
      ?_ ?_ ?_
    · rw [evdevHotkeys_get]
    · rw [evdevHotkeys_get]
      exact modsMatch_iff.mpr rfl
    · simp
  · simp only [macosCallback]
    rw [macosUpdatePress_to_rdev]
    have := mem_macosPressEntries_of_get (to_rdev_key (hotkeys.get ⟨i, h⟩).key)
      (hotkeys.get ⟨i, h⟩).modifiers (rdevHotkeys hotkeys) 0 i hiR
      (by rw [rdevHotkeys_get]) (by rw [rdevHotkeys_get]; exact modsMatch_iff.mpr rfl)
    simpa using this
  · intro e he hcontra
    simp only [linuxProcessKey] at he
    rw [linuxUpdateMods_to_evdev] at he
    obtain ⟨j, hj, hidx, hkey, hmods⟩ := of_mem_matchEntries _ _ _ _ _ _ _ he
    have hji : j = i := by omega
    subst hji
    rw [evdevHotkeys_get] at hmods
    exact hne (modsMatch_iff.mp hmods)
  · intro e he hcontra
    simp only [macosCallback] at he
    rw [macosUpdatePress_to_rdev] at he
    obtain ⟨j, hj, hidx, hkey, hmods⟩ := of_mem_macosPressEntries _ _ _ _ _ he
    have hji : j = i := by
      rw [hidx] at hcontra
      simp [eventIndex] at hcontra
      omega
    subst hji
    rw [rdevHotkeys_get] at hmods
    exact hne (modsMatch_iff.mp hmods)

/-- C1 witness: one registered hotkey Shift+F8 at index 0, live state empty
(differs from the required modifiers). -/
theorem C1_press_exact_match_witness :
    (0 < ([⟨.F8, { shift := true }⟩] : List Hotkey).length) ∧
    (({} : Modifiers) ≠
      (([⟨.F8, { shift := true }⟩] : List Hotkey).get ⟨0, by decide⟩).modifiers) ∧
    (HotkeyEvent.Pressed 0 ∈
      (linuxProcessKey (evdevHotkeys [⟨.F8, { shift := true }⟩])
        (([⟨.F8, { shift := true }⟩] : List Hotkey).get ⟨0, by decide⟩).modifiers
        (to_evdev_key (([⟨.F8, { shift := true }⟩] : List Hotkey).get
          ⟨0, by decide⟩).key) 1).2 ∧
     HotkeyEvent.Pressed 0 ∈
      (macosCallback (rdevHotkeys [⟨.F8, { shift := true }⟩])
        (([⟨.F8, { shift := true }⟩] : List Hotkey).get ⟨0, by decide⟩).modifiers
        (.KeyPress (to_rdev_key (([⟨.F8, { shift := true }⟩] : List Hotkey).get
          ⟨0, by decide⟩).key))).2 ∧
     (∀ e ∈ (linuxProcessKey (evdevHotkeys [⟨.F8, { shift := true }⟩]) {}
        (to_evdev_key (([⟨.F8, { shift := true }⟩] : List Hotkey).get
          ⟨0, by decide⟩).key) 1).2, eventIndex e ≠ 0) ∧
     (∀ e ∈ (macosCallback (rdevHotkeys [⟨.F8, { shift := true }⟩]) {}
        (.KeyPress (to_rdev_key (([⟨.F8, { shift := true }⟩] : List Hotkey).get
          ⟨0, by decide⟩).key))).2, eventIndex e ≠ 0)) :=
  ⟨by decide, by decide,
    C1_press_exact_match [⟨.F8, { shift := true }⟩] 0 {} (by decide) (by decide)⟩

/-- C2: the two backends differ in release policy. On the raw-device (Linux)
backend a release of a registered key emits Released(i) only when the live
modifier state exactly equals the hotkey's modifiers, and emits nothing for
index i otherwise; on the hook (macOS) backend a release emits Released(i)
for every key-matching entry without comparing modifiers (here even from a
mismatched live state); press events require an exact modifier match on
both backends. -/
theorem C2_release_policy_asymmetry (hotkeys : List Hotkey) (i : Nat)
    (mods : Modifiers) (h : i < hotkeys.length)
    (hne : mods ≠ (hotkeys.get ⟨i, h⟩).modifiers) :
    HotkeyEvent.Released i ∈
      (linuxProcessKey (evdevHotkeys hotkeys) (hotkeys.get ⟨i, h⟩).modifiers
        (to_evdev_key (hotkeys.get ⟨i, h⟩).key) 0).2 ∧
    (∀ e ∈ (linuxProcessKey (evdevHotkeys hotkeys) mods
        (to_evdev_key (hotkeys.get ⟨i, h⟩).key) 0).2, eventIndex e ≠ i) ∧
    HotkeyEvent.Released i ∈
      (macosCallback (rdevHotkeys hotkeys) mods
        (.KeyRelease (to_rdev_key (hotkeys.get ⟨i, h⟩).key))).2 ∧
    HotkeyEvent.Pressed i ∈
      (linuxProcessKey (evdevHotkeys hotkeys) (hotkeys.get ⟨i, h⟩).modifiers
        (to_evdev_key (hotkeys.get ⟨i, h⟩).key) 1).2 ∧
    HotkeyEvent.Pressed i ∈
      (macosCallback (rdevHotkeys hotkeys) (hotkeys.get ⟨i, h⟩).modifiers
        (.KeyPress (to_rdev_key (hotkeys.get ⟨i, h⟩).key))).2 ∧
    (∀ e ∈ (linuxProcessKey (evdevHotkeys hotkeys) mods
        (to_evdev_key (hotkeys.get ⟨i, h⟩).key) 1).2, eventIndex e ≠ i) ∧
    (∀ e ∈ (macosCallback (rdevHotkeys hotkeys) mods
        (.KeyPress (to_rdev_key (hotkeys.get ⟨i, h⟩).key))).2,
      eventIndex e ≠ i) := by
  have hlenE : (evdevHotkeys hotkeys).length = hotkeys.length := by
    simp [evdevHotkeys]
  have hlenR : (rdevHotkeys hotkeys).length = hotkeys.length := by
    simp [rdevHotkeys]
  have hiE : i < (evdevHotkeys hotkeys).length := by omega
  have hiR : i < (rdevHotkeys hotkeys).length := by omega
  refine ⟨?_, ?_, ?_, ?_, ?_, ?_, ?_⟩
  · simp only [linuxProcessKey]
    rw [linuxUpdateMods_to_evdev]
    refine mem_matchEntries_of_get _ _ _ _ (evdevHotkeys hotkeys) 0 i hiE _
      ?_ ?_ ?_
    · rw [evdevHotkeys_get]
    · rw [evdevHotkeys_get]
      exact modsMatch_iff.mpr rfl
    · simp
  · intro e he hcontra
    simp only [linuxProcessKey] at he
    rw [linuxUpdateMods_to_evdev] at he
    obtain ⟨j, hj, hidx, hkey, hmods⟩ := of_mem_matchEntries _ _ _ _ _ _ _ he
    have hji : j = i := by omega
    subst hji
    rw [evdevHotkeys_get] at hmods
    exact hne (modsMatch_iff.mp hmods)
  · simp only [macosCallback]
    have := mem_macosReleaseEntries_of_get
      (to_rdev_key (hotkeys.get ⟨i, h⟩).key) (rdevHotkeys hotkeys) 0 i hiR
      (by rw [rdevHotkeys_get])
    simpa using this
  · simp only [linuxProcessKey]
    rw [linuxUpdateMods_to_evdev]
    refine mem_matchEntries_of_get _ _ _ _ (evdevHotkeys hotkeys) 0 i hiE _
      ?_ ?_ ?_
    · rw [evdevHotkeys_get]
    · rw [evdevHotkeys_get]
      exact modsMatch_iff.mpr rfl
    · simp
  · simp only [macosCallback]
    rw [macosUpdatePress_to_rdev]
    have := mem_macosPressEntries_of_get (to_rdev_key (hotkeys.get ⟨i, h⟩).key)
      (hotkeys.get ⟨i, h⟩).modifiers (rdevHotkeys hotkeys) 0 i hiR
      (by rw [rdevHotkeys_get]) (by rw [rdevHotkeys_get]; exact modsMatch_iff.mpr rfl)
    simpa using this
  · intro e he hcontra
    simp only [linuxProcessKey] at he
    rw [linuxUpdateMods_to_evdev] at he
    obtain ⟨j, hj, hidx, hkey, hmods⟩ := of_mem_matchEntries _ _ _ _ _ _ _ he
    have hji : j = i := by omega
    subst hji
    rw [evdevHotkeys_get] at hmods
    exact hne (modsMatch_iff.mp hmods)
  · intro e he hcontra
    simp only [macosCallback] at he
    rw [macosUpdatePress_to_rdev] at he
    obtain ⟨j, hj, hidx, hkey, hmods⟩ := of_mem_macosPressEntries _ _ _ _ _ he
    have hji : j = i := by
      rw [hidx] at hcontra
      simp [eventIndex] at hcontra
      omega
    subst hji
    rw [rdevHotkeys_get] at hmods
    exact hne (modsMatch_iff.mp hmods)

/-- C2 witness: hotkey Shift+F8 at index 0 with an empty live state; the
macOS backend still emits Released(0) while the Linux backend emits nothing
for index 0 on the same release. -/
theorem C2_release_policy_asymmetry_witness :
    (0 < ([⟨.F8, { shift := true }⟩] : List Hotkey).length) ∧
    (({} : Modifiers) ≠
      (([⟨.F8, { shift := true }⟩] : List Hotkey).get ⟨0, by decide⟩).modifiers) ∧
    (HotkeyEvent.Released 0 ∈
      (linuxProcessKey (evdevHotkeys [⟨.F8, { shift := true }⟩])
        (([⟨.F8, { shift := true }⟩] : List Hotkey).get ⟨0, by decide⟩).modifiers
        (to_evdev_key (([⟨.F8, { shift := true }⟩] : List Hotkey).get
          ⟨0, by decide⟩).key) 0).2 ∧
     (∀ e ∈ (linuxProcessKey (evdevHotkeys [⟨.F8, { shift := true }⟩]) {}
        (to_evdev_key (([⟨.F8, { shift := true }⟩] : List Hotkey).get
          ⟨0, by decide⟩).key) 0).2, eventIndex e ≠ 0) ∧
     HotkeyEvent.Released 0 ∈
      (macosCallback (rdevHotkeys [⟨.F8, { shift := true }⟩]) {}
        (.KeyRelease (to_rdev_key (([⟨.F8, { shift := true }⟩] : List Hotkey).get
          ⟨0, by decide⟩).key))).2 ∧
     HotkeyEvent.Pressed 0 ∈
      (linuxProcessKey (evdevHotkeys [⟨.F8, { shift := true }⟩])
        (([⟨.F8, { shift := true }⟩] : List Hotkey).get ⟨0, by decide⟩).modifiers
        (to_evdev_key (([⟨.F8, { shift := true }⟩] : List Hotkey).get
          ⟨0, by decide⟩).key) 1).2 ∧
     HotkeyEvent.Pressed 0 ∈
      (macosCallback (rdevHotkeys [⟨.F8, { shift := true }⟩])
        (([⟨.F8, { shift := true }⟩] : List Hotkey).get ⟨0, by decide⟩).modifiers
        (.KeyPress (to_rdev_key (([⟨.F8, { shift := true }⟩] : List Hotkey).get
          ⟨0, by decide⟩).key))).2 ∧
     (∀ e ∈ (linuxProcessKey (evdevHotkeys [⟨.F8, { shift := true }⟩]) {}
        (to_evdev_key (([⟨.F8, { shift := true }⟩] : List Hotkey).get
          ⟨0, by decide⟩).key) 1).2, eventIndex e ≠ 0) ∧
     (∀ e ∈ (macosCallback (rdevHotkeys [⟨.F8, { shift := true }⟩]) {}
        (.KeyPress (to_rdev_key (([⟨.F8, { shift := true }⟩] : List Hotkey).get
          ⟨0, by decide⟩).key))).2, eventIndex e ≠ 0)) :=
  ⟨by decide, by decide,
    C2_release_policy_asymmetry [⟨.F8, { shift := true }⟩] 0 {} (by decide)
      (by decide)⟩

/-- C4: the index carried in every emitted HotkeyEvent equals the
zero-based registration position of the matching hotkey: when registered
keys are pairwise distinct, any transition (any raw value) of the key of
the hotkey at position i can only ever produce events with index i, on both
backends. The table itself is a pure function of the registration list
(evdevHotkeys, rdevHotkeys), so the mapping cannot change after build
time. -/
theorem C4_index_stability (hotkeys : List Hotkey) (i : Nat) (mods : Modifiers)
    (value : Nat) (h : i < hotkeys.length)
    (hdist : hotkeys.Pairwise fun a b => a.key ≠ b.key) :
    (∀ e ∈ (linuxProcessKey (evdevHotkeys hotkeys) mods
        (to_evdev_key (hotkeys.get ⟨i, h⟩).key) value).2, eventIndex e = i) ∧
    (∀ e ∈ (macosCallback (rdevHotkeys hotkeys) mods
        (.KeyPress (to_rdev_key (hotkeys.get ⟨i, h⟩).key))).2,
      eventIndex e = i) ∧
    (∀ e ∈ (macosCallback (rdevHotkeys hotkeys) mods
        (.KeyRelease (to_rdev_key (hotkeys.get ⟨i, h⟩).key))).2,
      eventIndex e = i) := by
  have hpair := List.pairwise_iff_get.mp hdist
  have keyEq : ∀ (j : Nat) (hj : j < hotkeys.length),
      (hotkeys.get ⟨j, hj⟩).key = (hotkeys.get ⟨i, h⟩).key → j = i := by
    intro j hj hkeys
    rcases Nat.lt_trichotomy j i with hlt | heq | hgt
    · exact absurd hkeys (hpair ⟨j, hj⟩ ⟨i, h⟩ (Fin.mk_lt_mk.mpr hlt))
    · exact heq
    · exact absurd hkeys.symm (hpair ⟨i, h⟩ ⟨j, hj⟩ (Fin.mk_lt_mk.mpr hgt))
  have hlenE : (evdevHotkeys hotkeys).length = hotkeys.length := by
    simp [evdevHotkeys]
  have hlenR : (rdevHotkeys hotkeys).length = hotkeys.length := by
    simp [rdevHotkeys]
  refine ⟨?_, ?_, ?_⟩
  · intro e he
    simp only [linuxProcessKey] at he
    rw [linuxUpdateMods_to_evdev] at he
    obtain ⟨j, hj, hidx, hkey, _⟩ := of_mem_matchEntries _ _ _ _ _ _ _ he
    rw [evdevHotkeys_get] at hkey
    have hj2 : j < hotkeys.length := by omega
    have : j = i := keyEq j hj2 (to_evdev_key_inj hkey)
    omega
  · intro e he
    simp only [macosCallback] at he
    rw [macosUpdatePress_to_rdev] at he
    obtain ⟨j, hj, hidx, hkey, _⟩ := of_mem_macosPressEntries _ _ _ _ _ he
    rw [rdevHotkeys_get] at hkey
    have hj2 : j < hotkeys.length := by omega
    have hji : j = i := keyEq j hj2 (to_rdev_key_inj hkey)
    rw [hidx]
    simp [eventIndex, hji]
  · intro e he
    simp only [macosCallback] at he
    obtain ⟨j, hj, hidx, hkey⟩ := of_mem_macosReleaseEntries _ _ _ _ he
    rw [rdevHotkeys_get] at hkey
    have hj2 : j < hotkeys.length := by omega
    have hji : j = i := keyEq j hj2 (to_rdev_key_inj hkey)
    rw [hidx]
    simp [eventIndex, hji]

/-- C4 witness: registration order [F1, F2, F3]; a press of the second key
yields only index 1 on both backends. -/
theorem C4_index_stability_witness :
    (1 < ([⟨.F1, {}⟩, ⟨.F2, {}⟩, ⟨.F3, {}⟩] : List Hotkey).length) ∧
    (([⟨.F1, {}⟩, ⟨.F2, {}⟩, ⟨.F3, {}⟩] : List Hotkey).Pairwise
      fun a b => a.key ≠ b.key) ∧
    ((∀ e ∈ (linuxProcessKey (evdevHotkeys [⟨.F1, {}⟩, ⟨.F2, {}⟩, ⟨.F3, {}⟩]) {}
        (to_evdev_key (([⟨.F1, {}⟩, ⟨.F2, {}⟩, ⟨.F3, {}⟩] : List Hotkey).get
          ⟨1, by decide⟩).key) 1).2, eventIndex e = 1) ∧
     (∀ e ∈ (macosCallback (rdevHotkeys [⟨.F1, {}⟩, ⟨.F2, {}⟩, ⟨.F3, {}⟩]) {}
        (.KeyPress (to_rdev_key (([⟨.F1, {}⟩, ⟨.F2, {}⟩, ⟨.F3, {}⟩] : List Hotkey).get
          ⟨1, by decide⟩).key))).2, eventIndex e = 1) ∧
     (∀ e ∈ (macosCallback (rdevHotkeys [⟨.F1, {}⟩, ⟨.F2, {}⟩, ⟨.F3, {}⟩]) {}
        (.KeyRelease (to_rdev_key (([⟨.F1, {}⟩, ⟨.F2, {}⟩, ⟨.F3, {}⟩] : List Hotkey).get
          ⟨1, by decide⟩).key))).2, eventIndex e = 1)) :=
  ⟨by decide, by decide,
    C4_index_stability [⟨.F1, {}⟩, ⟨.F2, {}⟩, ⟨.F3, {}⟩] 1 {} 1 (by decide)
      (by decide)⟩

/-- C5: on the raw-device backend only the discrete values 1 (key-down) and
0 (key-up) can produce HotkeyEvents: the autorepeat value 2 produces zero
events and leaves the modifier state unchanged, any other non-press,
non-release value produces zero events, and deleting an autorepeat event
from any input sequence leaves the entire run (final state and emitted
events) unchanged. -/
theorem C5_autorepeat_filtered (hotkeys : List (EvdevKey × Modifiers))
    (mods : Modifiers) (k : EvdevKey) (v : Nat)
    (xs ys : List LinuxInputEvent) (hv0 : v ≠ 0) (hv1 : v ≠ 1) :
    linuxProcessKey hotkeys mods k 2 = (mods, []) ∧
    (linuxProcessKey hotkeys mods k v).2 = [] ∧
    linuxRun hotkeys mods (xs ++ LinuxInputEvent.key k 2 :: ys) =
      linuxRun hotkeys mods (xs ++ ys) := by
  have hstep : ∀ (m : Modifiers), linuxProcessKey hotkeys m k 2 = (m, []) := by
    intro m
    simp [linuxProcessKey, linuxUpdateMods_neither, matchEntries_neither]
  refine ⟨hstep mods, ?_, ?_⟩
  · have h1 : (v == 1) = false := by simp [hv1]
    have h0 : (v == 0) = false := by simp [hv0]
    simp [linuxProcessKey, h0, h1, linuxUpdateMods_neither, matchEntries_neither]
  · induction xs generalizing mods with
    | nil => simp [linuxRun, linuxProcessEvent, hstep]
    | cons e rest ih => simp [linuxRun, ih]

/-- C5 witness: a singleton table, the F8 key, and the non-press value 5. -/
theorem C5_autorepeat_filtered_witness :
    ((5 : Nat) ≠ 0) ∧ ((5 : Nat) ≠ 1) ∧
    (linuxProcessKey [(EvdevKey.KEY_F8, {})] {} .KEY_F8 2 = ({}, []) ∧
     (linuxProcessKey [(EvdevKey.KEY_F8, {})] {} .KEY_F8 5).2 = [] ∧
     linuxRun [(EvdevKey.KEY_F8, {})] {}
        ([LinuxInputEvent.key .KEY_F8 1] ++
          LinuxInputEvent.key .KEY_F8 2 :: [LinuxInputEvent.key .KEY_F8 0]) =
       linuxRun [(EvdevKey.KEY_F8, {})] {}
        ([LinuxInputEvent.key .KEY_F8 1] ++ [LinuxInputEvent.key .KEY_F8 0])) :=
  ⟨by decide, by decide,
    C5_autorepeat_filtered [(EvdevKey.KEY_F8, {})] {} .KEY_F8 5
      [LinuxInputEvent.key .KEY_F8 1] [LinuxInputEvent.key .KEY_F8 0]
      (by decide) (by decide)⟩

/-- C6: events are delivered to the channel in the exact order their
underlying transitions were processed: on both backends, running a
concatenated input sequence yields exactly the events of the first segment
followed by the events of the second segment (computed from the state the
first segment left behind), so every event emitted for an earlier
transition precedes every event emitted for a later one and no reordering
or batching occurs. -/
theorem C6_order_preserved (hksE : List (EvdevKey × Modifiers))
    (hksR : List (RdevKey × Modifiers)) (modsE modsR : Modifiers)
    (xs ys : List LinuxInputEvent) (as bs : List RdevEventType) :
    linuxRun hksE modsE (xs ++ ys) =
      ((linuxRun hksE (linuxRun hksE modsE xs).1 ys).1,
       (linuxRun hksE modsE xs).2 ++
         (linuxRun hksE (linuxRun hksE modsE xs).1 ys).2) ∧
    macosRun hksR modsR (as ++ bs) =
      ((macosRun hksR (macosRun hksR modsR as).1 bs).1,
       (macosRun hksR modsR as).2 ++
         (macosRun hksR (macosRun hksR modsR as).1 bs).2) := by
  constructor
  · induction xs generalizing modsE with
    | nil => simp [linuxRun]
    | cons e rest ih => simp [linuxRun, ih]
  · induction as generalizing modsR with
    | nil => simp [macosRun]
    | cons e rest ih => simp [macosRun, ih]

/-- C3 counterexample: the claim says the left and right variants of each
modifier key are aliased to the same logical flag on both backends and that
a press of a modifier key sets its flag. On the macOS backend the right-alt
key (rdev AltGr) is not matched: pressing it leaves the alt flag false and
the whole state untouched, while the left-alt key (rdev Alt) and the Linux
KEY_RIGHTALT do set the flag. -/
theorem C3_counterexample :
    (macosUpdatePress {} RdevKey.AltGr).alt = false ∧
    macosUpdatePress {} RdevKey.AltGr = {} ∧
    macosUpdateRelease { alt := true } RdevKey.AltGr = { alt := true } ∧
    (macosUpdatePress {} RdevKey.Alt).alt = true ∧
    (linuxUpdateMods {} EvdevKey.KEY_RIGHTALT true false).alt = true := by
  decide

/-- C3 amended: every transition updates at most one of the three flags; a
press sets the flag and a release clears it unconditionally; non-modifier
keys leave the state untouched; left and right variants are aliased on the
Linux backend for all three modifiers and on the macOS backend for shift
and ctrl, but on the macOS backend only the single rdev Alt key drives the
alt flag, the right-alt variant AltGr being treated as a non-modifier. -/
theorem C3_modifier_tracker (mods : Modifiers) (p r : Bool)
    (k1 ke : EvdevKey) (k2 kr : RdevKey)
    (he : isModifierEvdevKey ke = false) (hr : isModifierRdevKey kr = false) :
    changedFlags mods (linuxUpdateMods mods k1 p r) ≤ 1 ∧
    changedFlags mods (macosUpdatePress mods k2) ≤ 1 ∧
    changedFlags mods (macosUpdateRelease mods k2) ≤ 1 ∧
    linuxUpdateMods mods .KEY_LEFTSHIFT p r =
      linuxUpdateMods mods .KEY_RIGHTSHIFT p r ∧
    linuxUpdateMods mods .KEY_LEFTCTRL p r =
      linuxUpdateMods mods .KEY_RIGHTCTRL p r ∧
    linuxUpdateMods mods .KEY_LEFTALT p r =
      linuxUpdateMods mods .KEY_RIGHTALT p r ∧
    macosUpdatePress mods .ShiftLeft = macosUpdatePress mods .ShiftRight ∧
    macosUpdateRelease mods .ShiftLeft = macosUpdateRelease mods .ShiftRight ∧
    macosUpdatePress mods .ControlLeft = macosUpdatePress mods .ControlRight ∧
    macosUpdateRelease mods .ControlLeft =
      macosUpdateRelease mods .ControlRight ∧
    (linuxUpdateMods mods .KEY_LEFTSHIFT true false).shift = true ∧
    (linuxUpdateMods mods .KEY_RIGHTSHIFT false true).shift = false ∧
    (linuxUpdateMods mods .KEY_LEFTCTRL true false).ctrl = true ∧
    (linuxUpdateMods mods .KEY_RIGHTCTRL false true).ctrl = false ∧
    (linuxUpdateMods mods .KEY_LEFTALT true false).alt = true ∧
    (linuxUpdateMods mods .KEY_RIGHTALT false true).alt = false ∧
    (macosUpdatePress mods .ShiftLeft).shift = true ∧
    (macosUpdateRelease mods .ShiftRight).shift = false ∧
    (macosUpdatePress mods .ControlRight).ctrl = true ∧
    (macosUpdateRelease mods .ControlLeft).ctrl = false ∧
    (macosUpdatePress mods .Alt).alt = true ∧
    (macosUpdateRelease mods .Alt).alt = false ∧
    macosUpdatePress mods .AltGr = mods ∧
    macosUpdateRelease mods .AltGr = mods ∧
    linuxUpdateMods mods ke p r = mods ∧
    macosUpdatePress mods kr = mods ∧
    macosUpdateRelease mods kr = mods := by
  refine ⟨?_, ?_, ?_, rfl, rfl, rfl, rfl, rfl, rfl, rfl, rfl, rfl, rfl, rfl,
    rfl, rfl, rfl, rfl, rfl, rfl, rfl, rfl, rfl, rfl, ?_, ?_, ?_⟩
  · cases k1 <;>
      first
        | exact changedFlags_shift mods _
        | exact changedFlags_ctrl mods _
        | exact changedFlags_alt mods _
  · cases k2 <;>
      first
        | exact changedFlags_shift mods _
        | exact changedFlags_ctrl mods _
        | exact changedFlags_alt mods _
  · cases k2 <;>
      first
        | exact changedFlags_shift mods _
        | exact changedFlags_ctrl mods _
        | exact changedFlags_alt mods _
  · cases ke <;> first | rfl | simp [isModifierEvdevKey] at he
  · cases kr <;> first | rfl | simp [isModifierRdevKey] at hr
  · cases kr <;> first | rfl | simp [isModifierRdevKey] at hr

/-- C3 amended witness: F8 as the non-modifier key on both backends. -/
theorem C3_modifier_tracker_witness :
    isModifierEvdevKey .KEY_F8 = false ∧ isModifierRdevKey .F8 = false ∧
    changedFlags {} (linuxUpdateMods {} .KEY_LEFTSHIFT true false) ≤ 1 ∧
    linuxUpdateMods {} .KEY_F8 true false = {} :=
  ⟨by decide, by decide,
    (C3_modifier_tracker {} true false .KEY_LEFTSHIFT .KEY_F8 .ShiftLeft .F8
      (by decide) (by decide)).1,
    (by
      have h := C3_modifier_tracker {} true false .KEY_LEFTSHIFT .KEY_F8
        .ShiftLeft .F8 (by decide) (by decide)
      exact h.2.2.2.2.2.2.2.2.2.2.2.2.2.2.2.2.2.2.2.2.2.2.2.2.2.1)⟩

/-- C7: when a rescan is due and succeeds (discovery returns a device set
and setting non-blocking mode succeeds), the whole device set is replaced
by the discovered one, the modifier state is reset to all-false and
had_error is cleared (Healthy); when discovery or the non-blocking setup
fails, the device set, modifier state and had_error are unchanged (still
Faulted, since the guard required had_error) and only last_rescan is reset,
restarting the cooldown. -/
theorem C7_rescan_recovery (s : LoopState) (now : Nat)
    (entriesGood entriesBad : List CandidateDevice) (fGood fBad : Nat → Bool)
    (newKbs : List Nat)
    (hdue : rescanDue s now = true)
    (hfind : find_keyboards entriesGood = .ok newKbs)
    (hnb : set_nonblocking fGood newKbs = .ok ())
    (hnbBad : exceptIsOk (set_nonblocking fBad newKbs) = false)
    (hfindBad : exceptIsOk (find_keyboards entriesBad) = false) :
    rescanStep s now entriesGood fGood =
      { keyboards := newKbs,
        currentMods := { shift := false, ctrl := false, alt := false },
        hadError := false, lastRescan := now } ∧
    rescanStep s now entriesGood fBad = { s with lastRescan := now } ∧
    rescanStep s now entriesBad fGood = { s with lastRescan := now } ∧
    s.hadError = true := by
  have hHad : s.hadError = true := by
    have h2 := hdue
    simp [rescanDue, Bool.and_eq_true] at h2
    exact h2.1
  refine ⟨?_, ?_, ?_, hHad⟩
  · simp [rescanStep, hdue, hfind, hnb]
  · cases hsb : set_nonblocking fBad newKbs with
    | ok u =>
      rw [hsb] at hnbBad
      simp [exceptIsOk] at hnbBad
    | error e => simp [rescanStep, hdue, hfind, hsb]
  · cases hfb : find_keyboards entriesBad with
    | ok kbs2 =>
      rw [hfb] at hfindBad
      simp [exceptIsOk] at hfindBad
    | error e => simp [rescanStep, hdue, hfb]

/-- C7 witness: a faulted state holding a stale shift modifier, a good
discovery result [7], a discovery list whose only entry fails to open, and
a non-blocking setup that fails on every device. -/
theorem C7_rescan_recovery_witness :
    rescanDue faultedSample 10 = true ∧
    find_keyboards [kbdEntry] = .ok [7] ∧
    set_nonblocking allOk [7] = .ok () ∧
    exceptIsOk (set_nonblocking allFail [7]) = false ∧
    exceptIsOk (find_keyboards [unopenableEntry]) = false ∧
    (rescanStep faultedSample 10 [kbdEntry] allOk =
      { keyboards := [7],
        currentMods := { shift := false, ctrl := false, alt := false },
        hadError := false, lastRescan := 10 } ∧
     rescanStep faultedSample 10 [kbdEntry] allFail =
      { faultedSample with lastRescan := 10 } ∧
     rescanStep faultedSample 10 [unopenableEntry] allOk =
      { faultedSample with lastRescan := 10 } ∧
     faultedSample.hadError = true) :=
  ⟨by decide, by decide, by decide, by decide, by decide,
    C7_rescan_recovery faultedSample 10 [kbdEntry] [unopenableEntry]
      allOk allFail [7]
      (by decide) (by decide) (by decide) (by decide) (by decide)⟩

/-- C8 counterexample: the claim says no rescan attempt ever occurs earlier
than one full cooldown interval after the fault was first detected. In the
code the guard compares against last_rescan, which is set at thread start
and at rescan attempts, not at fault detection: with the listener started
at time 0, a fault recorded at time 5 makes a rescan due at time 5 itself —
5 - 5 = 0 time units after detection, less than RESCAN_INTERVAL — and the
rescan actually runs and replaces the devices. -/
theorem C8_counterexample :
    rescanDue (pollTick startSample true) 5 = true ∧
    (5 : Nat) - 5 < RESCAN_INTERVAL ∧
    rescanStep (pollTick startSample true) 5 [kbdEntry9] allOk =
      { keyboards := [9], currentMods := {}, hadError := false,
        lastRescan := 5 } := by
  decide

/-- C8 amended: a rescan attempt happens only when had_error is set and at
least RESCAN_INTERVAL has elapsed since last_rescan — the time of the last
rescan attempt or of listener start, not the time the fault was detected —
and every attempt (successful or not) restarts that cooldown by setting
last_rescan to now. -/
theorem C8_cooldown_from_last_attempt (s : LoopState) (now : Nat)
    (entries : List CandidateDevice) (f : Nat → Bool)
    (h : rescanDue s now = true) :
    s.hadError = true ∧ s.lastRescan + RESCAN_INTERVAL ≤ now ∧
    (rescanStep s now entries f).lastRescan = now := by
  have h2 := h
  simp only [rescanDue, Bool.and_eq_true, decide_eq_true_eq] at h2
  refine ⟨h2.1, ?_, ?_⟩
  · have h3 := h2.2
    simp only [RESCAN_INTERVAL] at h3 ⊢
    omega
  · unfold rescanStep
    rw [if_pos h]
    cases hfk : find_keyboards entries with
    | ok kbs =>
      cases hsb : set_nonblocking f kbs with
      | ok u => simp [hsb]
      | error e => simp [hsb]
    | error e => simp

/-- C8 amended witness: faulted since some earlier time, last rescan at
time 2, now 5: exactly one interval elapsed since the last attempt. -/
theorem C8_cooldown_from_last_attempt_witness :
    rescanDue recentSample 5 = true ∧
    (recentSample.hadError = true ∧
     recentSample.lastRescan + RESCAN_INTERVAL ≤ 5 ∧
     (rescanStep recentSample 5 [] allOk).lastRescan = 5) :=
  ⟨by decide,
    C8_cooldown_from_last_attempt recentSample 5 [] allOk (by decide)⟩

/-- C9 counterexample: the claim says that if hook registration fails,
start() returns an error rather than succeeding and failing later. In
src/macos.rs, `listen(callback)` runs inside the spawned thread and start()
returns Ok unconditionally: with hook registration failing, start still
succeeds, the thread is spawned, and the failure is visible only as the
shared running flag being stored false afterwards. -/
theorem C9_counterexample :
    macosStart false =
      .ok { threadSpawned := true, runningFlagAfterHookAttempt := false } ∧
    exceptIsOk (macosStart false) = true := by
  decide

/-- C9 amended: no-devices (empty discovery), failure to set non-blocking
mode, and the unsupported platform are synchronous errors of build/start,
surfaced before the Linux worker thread is spawned; hook registration
failure on the macOS backend is not: start() still returns Ok with the
thread spawned, and the failure is reported asynchronously by clearing the
shared running flag. -/
theorem C9_construction_errors (entries : List CandidateDevice)
    (kbs : List Nat) (f : Nat → Bool) (d : Nat) (hookOk : Bool)
    (hempty : entries.filter keptByDiscovery = [])
    (hd : d ∈ kbs) (hf : f d = false) :
    exceptIsOk (find_keyboards entries) = false ∧
    exceptIsOk (linuxStart kbs f) = false ∧
    exceptIsOk buildUnsupported = false ∧
    macosStart hookOk =
      .ok { threadSpawned := true, runningFlagAfterHookAttempt := hookOk } := by
  refine ⟨?_, ?_, rfl, rfl⟩
  · simp [find_keyboards, hempty, exceptIsOk]
  · have herr := set_nonblocking_error f kbs d hd hf
    cases hsb : set_nonblocking f kbs with
    | ok u =>
      rw [hsb] at herr
      simp [exceptIsOk] at herr
    | error e => simp [linuxStart, hsb, exceptIsOk]

/-- C9 amended witness: discovery list with one non-keyboard entry, one
device on which the non-blocking fcntl fails, and a failing hook. -/
theorem C9_construction_errors_witness :
    ([nonKbdEntry] : List CandidateDevice).filter keptByDiscovery = [] ∧
    (3 : Nat) ∈ [3] ∧ allFail 3 = false ∧
    (exceptIsOk (find_keyboards [nonKbdEntry]) = false ∧
     exceptIsOk (linuxStart [3] allFail) = false ∧
     exceptIsOk buildUnsupported = false ∧
     macosStart false =
       .ok { threadSpawned := true, runningFlagAfterHookAttempt := false }) :=
  ⟨by decide, by decide, by decide,
    C9_construction_errors [nonKbdEntry] [3] allFail 3 false
      (by decide) (by decide) (by decide)⟩

/-- C10: round trip of the hotkey string form. For every Hotkey value h over
the public Key enum and Modifiers struct, parsing its display representation
recovers it exactly: parse_hotkey (h.display) succeeds and returns a Hotkey
equal to h. -/
theorem C10_display_parse_roundtrip (h : Hotkey) :
    parse_hotkey (Hotkey.display h) = .ok h := by
  obtain ⟨k, s, c, a⟩ := h
  cases k <;> cases s <;> cases c <;> cases a <;> decide

end HotkeyListener
